import Mathlib

/-!
Shallow embedding of the chunk-management and bump-allocation engine of
`src/core_arena.c` (McUsr/core_arena), for checking the repository's
specification against the code.

Modelling conventions:
* `size_t` values are `Nat`; `ptrdiff_t` / pointer values are `Int`
  (the code converts every request to `ptrdiff_t` after a `PTRDIFF_MAX`
  guard, so signed arithmetic never overflows on the paths modelled here;
  the two `size_t -> long long` / `size_t -> ptrdiff_t` reinterpretations
  that can produce negative values are modelled exactly by `tc64`).
* Addresses returned by `malloc` are supplied by an explicit parameter
  `mres : Option Int` (`none` = allocation failure).  Every operation of
  the engine calls `malloc` at most once.
* One arena index `n` is modelled (all the specified properties are
  per-arena); the per-arena instrumentation cells
  `arenas_mem_malloced[n]`, `arenas_mem_mmapped[n]`, `arenas_mem_served[n]`
  and their counts live in `Glob` next to the process-wide budget
  `tot_mem_usage` and the ceiling `ARENAS_MAX_ALLOC`.
* Writes of zero bytes performed by the code are reported as half-open
  address ranges `(lo, hi)` instead of mutating a byte map; the engine
  writes nothing else inside chunks.
* Process termination is a result constructor: `fatal` for
  `exit(EXIT_FAILURE)` / `abort()`, `assertFail` for a failed `assert`,
  `ub` for undefined behaviour actually present in the code
  (null-pointer dereference, `memset(NULL, ...)`).
-/

namespace CoreArena

/-- `MAX_ALIGN` from core_arena.h (16-byte alignment). -/
def MAX_ALIGN : Int := 16

/-- `MALLOC_PTR_SIZE` from core_arena.h. -/
def MALLOC_PTR_SIZE : Int := 8

/-- `_AHS = sizeof(struct arena)`: four 8-byte fields, 16-byte aligned = 32. -/
def AHS : Int := 32

/-- `c128K = 128 * 1024`, the malloc/mmap threshold used by the logging code. -/
def c128K : Int := 131072

/-- `PTRDIFF_MAX` on the 64-bit platform the code targets. -/
def PTRDIFF_MAX : Int := 9223372036854775807

/-- `PTRDIFF_MAX` as a natural number, for comparisons against `size_t` values. -/
def PTRDIFF_MAXn : Nat := 9223372036854775807

/-- Reinterpretation of a `size_t` value as a signed 64-bit value
(two's complement), as happens in `ptrdiff_t chunk_pd = chunk_sz;` and
`mem_ll = nelem * mem_sz;`. -/
def tc64 (x : Nat) : Int :=
  if x % 18446744073709551616 < 9223372036854775808 then
    ((x % 18446744073709551616 : Nat) : Int)
  else
    ((x % 18446744073709551616 : Nat) : Int) - 18446744073709551616

/-- Wrapping `size_t` subtraction (used by `tot_mem_usage -= ...` in
`arena_destroy`). -/
def sub64 (a b : Int) : Int := (a - b) % 18446744073709551616

/-- `-m & (MAX_ALIGN - 1)` on a signed 64-bit `m`: the padding that rounds
`m` up to the next multiple of 16. -/
def padOf (m : Int) : Int := (-m) % 16

/-- One chunk of the chain hanging off `first[n].next`: the record
`struct arena` when used as a chunk header.  `base` is the address malloc
returned, `mallocSz` the number of bytes actually obtained from malloc
(kept as a ghost field so bounds claims can be stated), `chunk_sz`,
`beg` (`begin`) and `end_` (`end`) the stored fields.  The `next` links
are represented by the list order. -/
structure Chunk where
  base : Int
  mallocSz : Int
  chunk_sz : Int
  beg : Int
  end_ : Int
deriving DecidableEq

/-- Dummy chunk used as the default of list lookups. -/
def chunk0 : Chunk := ⟨0, 0, 0, 0, 0⟩

/-- Process-wide state: the budget tracker (`tot_mem_usage`,
`ARENAS_MAX_ALLOC`), the log level, and the instrumentation cells for the
modelled arena. -/
structure Glob where
  max_alloc : Int
  tot_mem_usage : Int
  log_level : Int
  mem_malloced : Int
  mem_malloced_count : Int
  mem_mmapped : Int
  mem_mmapped_count : Int
  mem_served : Int
  mem_served_count : Int
deriving DecidableEq

/-- What `arenas[n]` points at: `NULL` (never created, or destroyed), the
sentinel `&first[n]` (after `arena_dealloc` on an empty chain), or the
chunk at position `i` of the chain. -/
inductive Slot where
  | nullp : Slot
  | sentinel : Slot
  | cur : Nat → Slot
deriving DecidableEq

/-- State of the modelled arena: `first[n].chunk_sz` (`fcs`), the chunk
chain reachable from `first[n].next`, the `arenas[n]` pointer, and the
`arenas_initialized` flag of the registry. -/
structure St where
  g : Glob
  fcs : Int
  chain : List Chunk
  slot : Slot
  inited : Bool
deriving DecidableEq

/-- Observable outcome of one operation. -/
inductive Out where
  | ok : Int → Out
  | nullRet : Out
  | fatal : Out
  | assertFail : Out
  | ub : Out
deriving DecidableEq

/-- Result of the chunk-search loop of `_alloc`. -/
inductive FRes where
  | found : FRes
  | noMem : FRes
  | fatalStop : FRes
deriving DecidableEq

/-- Result of the end-of-chain growth step of `_alloc`. -/
inductive GrowRes where
  | grown : Chunk → Glob → GrowRes
  | noMem : GrowRes
  | fatalStop : GrowRes
deriving DecidableEq

/-- The end-of-chain branch of `_alloc`'s loop: size fail-safe, budget
check, `malloc`, budget/instrumentation update, and the new chunk's field
initialisation (including `ap->end = ap->begin + ap->chunk_sz`). -/
def growChunk (g : Glob) (fcs pd padding : Int) (mres : Option Int) : GrowRes :=
  if PTRDIFF_MAX - AHS - padding < pd then .noMem
  else
    let real_size := max (pd + padding + AHS) fcs
    if g.max_alloc < real_size then .fatalStop
    else if g.max_alloc - real_size < g.tot_mem_usage then .fatalStop
    else
      match mres with
      | none => .noMem
      | some b =>
        let g1 := { g with tot_mem_usage := g.tot_mem_usage + real_size }
        let g2 :=
          if 0 < g1.log_level then
            if real_size < c128K then
              { g1 with mem_malloced := g1.mem_malloced + real_size,
                        mem_malloced_count := g1.mem_malloced_count + 1 }
            else
              { g1 with mem_mmapped := g1.mem_mmapped + real_size,
                        mem_mmapped_count := g1.mem_mmapped_count + 1 }
          else g1
        let csz := if fcs < real_size then real_size - AHS else fcs
        .grown ⟨b, real_size, csz, b + AHS, b + AHS + csz⟩ g2

/-- Output of the chunk-search loop: the serving (or last visited) chunk
`cur`, the chunks walked past (`passed`, in order, begin-reset applied to
the ones advanced into), the untouched tail `rest`, the updated globals,
and the sizes granted by malloc during the call. -/
structure FindOut where
  res : FRes
  passed : List Chunk
  cur : Chunk
  rest : List Chunk
  g : Glob
  granted : List Int
deriving DecidableEq

/-- The `for (ap = *p;; *p = ap)` loop of `_alloc`: if the request does not
fit the current chunk, advance into an already-linked successor (resetting
its `begin` to its header end) and retry; only at the end of the chain ask
`growChunk` for a new chunk. -/
def allocFind (g : Glob) (fcs pd padding : Int) (mres : Option Int) :
    Chunk → List Chunk → FindOut
  | cur, [] =>
    if (cur.end_ - cur.beg) - padding < pd then
      match growChunk g fcs pd padding mres with
      | .grown nc g2 => ⟨.found, [cur], nc, [], g2, [nc.mallocSz]⟩
      | .noMem => ⟨.noMem, [], cur, [], g, []⟩
      | .fatalStop => ⟨.fatalStop, [], cur, [], g, []⟩
    else ⟨.found, [], cur, [], g, []⟩
  | cur, c :: rest2 =>
    if (cur.end_ - cur.beg) - padding < pd then
      let o := allocFind g fcs pd padding mres { c with beg := c.base + AHS } rest2
      { o with passed := cur :: o.passed }
    else ⟨.found, [], cur, c :: rest2, g, []⟩

/-- Output of `_alloc`: result, updated chain, new index of `arenas[n]`,
updated globals, malloc grants, and the ranges zero-filled. -/
structure AllocOut where
  res : Out
  chain : List Chunk
  idx : Nat
  g : Glob
  granted : List Int
  zeroed : List (Int × Int)
deriving DecidableEq

/-- The internal function `_alloc`: request guards, padding, chunk search,
then the bump `ap->begin += mem_pd + padding` and the zero loop
`for (zptr = ap->begin - (padding + 1); zptr < ap->begin; zptr++)`. -/
def allocC (g : Glob) (fcs : Int) (chain : List Chunk) (i : Nat)
    (mem_sz : Nat) (mres : Option Int) : AllocOut :=
  if mem_sz = 0 ∨ PTRDIFF_MAXn < mem_sz then ⟨.nullRet, chain, i, g, [], []⟩
  else
    let pd : Int := (mem_sz : Int)
    let padding := padOf pd
    let o := allocFind g fcs pd padding mres (chain.getD i chunk0) (chain.drop (i + 1))
    match o.res with
    | .found =>
      let nbeg := o.cur.beg + pd + padding
      ⟨.ok o.cur.beg,
       chain.take i ++ o.passed ++ ({ o.cur with beg := nbeg } :: o.rest),
       i + o.passed.length, o.g, o.granted, [(nbeg - padding - 1, nbeg)]⟩
    | .noMem =>
      ⟨.nullRet, chain.take i ++ o.passed ++ (o.cur :: o.rest),
       i + o.passed.length, o.g, o.granted, []⟩
    | .fatalStop =>
      ⟨.fatal, chain.take i ++ o.passed ++ (o.cur :: o.rest),
       i + o.passed.length, o.g, o.granted, []⟩

/-- The `FULL_ARENA_LOGGING` serving-counter update at the end of
`arena_alloc`. -/
def bumpServed (g : Glob) (pd : Int) : Glob :=
  if 2 ≤ g.log_level then
    { g with mem_served := g.mem_served + pd,
             mem_served_count := g.mem_served_count + 1 }
  else g

/-- Return value and state of a user-level allocation call. -/
structure ARet where
  out : Out
  st : St
  zeroed : List (Int × Int)
  granted : List Int
deriving DecidableEq

/-- Slow path of `arena_alloc` when `arenas[n]` points at chunk `i`:
`p = _alloc(&arenas[n], mem_pd, n)` followed by the serving-counter
update (which the code performs even when `_alloc` returned NULL). -/
def allocSlowCur (st : St) (i : Nat) (pd : Int) (mres : Option Int) : ARet :=
  let o := allocC st.g st.fcs st.chain i pd.toNat mres
  match o.res with
  | .ok p =>
    ⟨.ok p, { st with chain := o.chain, slot := .cur o.idx, g := bumpServed o.g pd },
     o.zeroed, o.granted⟩
  | .nullRet =>
    ⟨.nullRet, { st with chain := o.chain, slot := .cur o.idx, g := bumpServed o.g pd },
     o.zeroed, o.granted⟩
  | _ => ⟨.fatal, { st with chain := o.chain, slot := .cur o.idx, g := o.g }, o.zeroed, o.granted⟩

/-- Slow path of `arena_alloc` when `arenas[n]` is the sentinel
`&first[n]` (whose `begin`/`end` are the cleared value 0, so no request
ever fits it): `_alloc` walks `first[n].next`, i.e. the chain from
position 0 after a begin reset, or grows a fresh chunk onto the empty
chain. -/
def allocSlowSentinel (st : St) (pd : Int) (mres : Option Int) : ARet :=
  let padding2 := padOf pd
  match st.chain with
  | [] =>
    match growChunk st.g st.fcs pd padding2 mres with
    | .grown nc g2 =>
      let nbeg := nc.beg + pd + padding2
      ⟨.ok nc.beg,
       { st with chain := [{ nc with beg := nbeg }], slot := .cur 0,
                 g := bumpServed g2 pd },
       [(nbeg - padding2 - 1, nbeg)], [nc.mallocSz]⟩
    | .noMem => ⟨.nullRet, { st with g := bumpServed st.g pd }, [], []⟩
    | .fatalStop => ⟨.fatal, st, [], []⟩
  | c :: rest =>
    let o := allocFind st.g st.fcs pd padding2 mres { c with beg := c.base + AHS } rest
    match o.res with
    | .found =>
      let nbeg := o.cur.beg + pd + padding2
      ⟨.ok o.cur.beg,
       { st with chain := o.passed ++ ({ o.cur with beg := nbeg } :: o.rest),
                 slot := .cur o.passed.length, g := bumpServed o.g pd },
       [(nbeg - padding2 - 1, nbeg)], o.granted⟩
    | .noMem =>
      ⟨.nullRet,
       { st with chain := o.passed ++ (o.cur :: o.rest),
                 slot := .cur o.passed.length, g := bumpServed o.g pd },
       [], o.granted⟩
    | .fatalStop => ⟨.fatal, st, [], o.granted⟩

/-- `arena_alloc(n, mem_sz)`: registry assert, request guards, the read
`p = arenas[n]->begin` (a null dereference on a destroyed or never-created
arena), overflow and budget guards, then either the in-chunk fast path
(bump, zero the last byte and the padding, conditionally advance another
`MAX_ALIGN`) or `_alloc`. -/
def arena_alloc (st : St) (mem_sz : Nat) (mres : Option Int) : ARet :=
  if st.inited = false then ⟨.assertFail, st, [], []⟩
  else if mem_sz = 0 ∨ PTRDIFF_MAXn < mem_sz then ⟨.nullRet, st, [], []⟩
  else
    match st.slot with
    | .nullp => ⟨.ub, st, [], []⟩
    | .sentinel =>
      let m0 : Int := (mem_sz : Int)
      let padding := padOf m0
      let pd := m0 + padding
      if pd < m0 ∨ PTRDIFF_MAX - AHS < pd then ⟨.fatal, st, [], []⟩
      else if st.g.max_alloc < pd then ⟨.fatal, st, [], []⟩
      else if st.g.max_alloc - st.g.tot_mem_usage < pd then ⟨.fatal, st, [], []⟩
      else
        -- sentinel `begin`/`end` are 0, so `gauge = pd > 0 = end`: always `_alloc`
        allocSlowSentinel st pd mres
    | .cur i =>
      let c := st.chain.getD i chunk0
      let m0 : Int := (mem_sz : Int)
      let padding := padOf m0
      let pd := m0 + padding
      if pd < m0 ∨ PTRDIFF_MAX - AHS < pd then ⟨.fatal, st, [], []⟩
      else if st.g.max_alloc < pd then ⟨.fatal, st, [], []⟩
      else if st.g.max_alloc - st.g.tot_mem_usage < pd then ⟨.fatal, st, [], []⟩
      else
        let gauge := c.beg + pd
        if gauge < 0 then ⟨.assertFail, st, [], []⟩
        else if c.end_ < gauge then allocSlowCur st i pd mres
        else
          let nbeg := c.beg + pd
          let extra : Int := if gauge < c.end_ - MAX_ALIGN then MAX_ALIGN else 0
          ⟨.ok c.beg,
           { st with chain := st.chain.set i { c with beg := nbeg + extra },
                     g := bumpServed st.g pd },
           [(nbeg - padding - 1, nbeg)], []⟩

/-- `arena_calloc(n, nelem, mem_sz)`: registry assert, `assert(mem_sz > 0)`,
the `size_t` multiplication-overflow check `nelem > -1ULL / mem_sz`
(fatal), the `long long` sign tests on the product, the budget guards,
then `memset(arena_alloc(n, mem_ll), 0, mem_ll)` — with no null check on
the pointer before `memset`. -/
def arena_calloc (st : St) (nelem mem_sz : Nat) (mres : Option Int) : ARet :=
  if st.inited = false then ⟨.assertFail, st, [], []⟩
  else if mem_sz = 0 then ⟨.assertFail, st, [], []⟩
  else if 18446744073709551615 / mem_sz < nelem then ⟨.fatal, st, [], []⟩
  else
    let mem_ll := tc64 (nelem * mem_sz)
    if mem_ll ≤ 0 then ⟨.nullRet, st, [], []⟩
    else if PTRDIFF_MAX < mem_ll then ⟨.fatal, st, [], []⟩
    else if st.g.max_alloc < mem_ll then ⟨.fatal, st, [], []⟩
    else if st.g.max_alloc - st.g.tot_mem_usage < mem_ll then ⟨.fatal, st, [], []⟩
    else
      let r := arena_alloc st mem_ll.toNat mres
      match r.out with
      | .ok p => ⟨.ok p, r.st, r.zeroed ++ [(p, p + mem_ll)], r.granted⟩
      | .nullRet => ⟨.ub, r.st, r.zeroed, r.granted⟩
      | e => ⟨e, r.st, r.zeroed, r.granted⟩

/-- `arena_dealloc(n)`: rewind `arenas[n]` to `first[n].next`, resetting
that chunk's `begin` to its header end; if the chain is empty point
`arenas[n]` at the sentinel `&first[n]`. -/
def arena_dealloc (st : St) : Out × St :=
  if st.inited = false then (.assertFail, st)
  else
    match st.chain with
    | [] => (.ok 0, { st with slot := .sentinel })
    | c :: rest =>
      (.ok 0, { st with chain := { c with beg := c.base + AHS } :: rest, slot := .cur 0 })

/-- `arena_destroy(n)`: free every chunk of the chain, then — only when
`core_arena_log_level >= LOG_CHUNK_MALLOCS` — subtract the (cumulative,
never reset) instrumentation totals from `tot_mem_usage`; finally clear
`first[n].next` and `arenas[n]`. -/
def arena_destroy (st : St) : Out × St :=
  if st.inited = false then (.assertFail, st)
  else
    let g :=
      if 1 ≤ st.g.log_level then
        { st.g with
            tot_mem_usage := sub64 (sub64 st.g.tot_mem_usage st.g.mem_malloced)
                               st.g.mem_mmapped }
      else st.g
    (.ok 0, { st with g := g, chain := [], slot := .nullp })

/-- `_arena_init(n, chunk_sz)`: subtract `MALLOC_PTR_SIZE`, round the size
down to a multiple of `MAX_ALIGN`, validate against `_AHS` and the budget,
`malloc`, account the grant, and initialise the chunk's fields
(`begin = p + _AHS`, `end = p + chunk_pd`).  Note the `arenas_mem_mmapped_count`
branch increments the pointer, not the counter, so that cell stays
unchanged there. -/
def arenaInitC (g : Glob) (chunk_sz : Nat) (mres : Option Int) :
    Out × Option Chunk × Glob :=
  let cpd0 := tc64 chunk_sz
  if cpd0 < MALLOC_PTR_SIZE + MAX_ALIGN then (.fatal, none, g)
  else
    let cpd1 := cpd0 - MALLOC_PTR_SIZE
    let padding := padOf cpd1
    let cpd := if padding ≠ 0 then cpd1 - (MAX_ALIGN - padding) else cpd1
    if cpd ≤ AHS then (.fatal, none, g)
    else if g.max_alloc - MALLOC_PTR_SIZE < cpd then (.fatal, none, g)
    else if g.max_alloc - (cpd + MALLOC_PTR_SIZE) < g.tot_mem_usage then (.fatal, none, g)
    else
      match mres with
      | none => (.nullRet, none, g)
      | some b =>
        let g1 := { g with tot_mem_usage := g.tot_mem_usage + cpd }
        let g2 :=
          if 1 ≤ g1.log_level then
            if cpd < c128K then
              { g1 with mem_malloced := g1.mem_malloced + cpd,
                        mem_malloced_count := g1.mem_malloced_count + 1 }
            else
              { g1 with mem_mmapped := g1.mem_mmapped + cpd }
          else g1
        (.ok 0, some ⟨b, cpd, cpd, b + AHS, b + cpd⟩, g2)

/-- `arena_create(n, chunk_sz)`: registry assert, request guards (abort),
`first[n].next = _arena_init(n, chunk_sz)`, then the read
`first[n].chunk_sz = first[n].next->chunk_sz` — performed before the null
check, so a malloc failure inside `_arena_init` is dereferenced. -/
def arena_create (st : St) (chunk_sz : Nat) (mres : Option Int) : Out × St :=
  if st.inited = false then (.assertFail, st)
  else if chunk_sz = 0 ∨ PTRDIFF_MAXn < chunk_sz then (.fatal, st)
  else
    match arenaInitC st.g chunk_sz mres with
    | (.ok _, some c, g2) =>
      (.ok 0, { st with g := g2, fcs := c.chunk_sz, chain := [c], slot := .cur 0 })
    | (.nullRet, _, g2) => (.ub, { st with g := g2, chain := [] })
    | (_, _, g2) => (.fatal, { st with g := g2 })

/-! ### Derived predicates and concrete states used by the theorems -/

/-- A chunk as seen with its cursor erased, for frame (effect) statements:
all fields except `begin`. -/
def eraseBeg (c : Chunk) : Chunk := { c with beg := 0 }

/-- The per-chunk invariant of the spec's data model:
`header_end <= begin <= end` (i.e. `0 <= cursor <= limit`). -/
def WFChunk (c : Chunk) : Prop := c.base + AHS ≤ c.beg ∧ c.beg ≤ c.end_

/-- `arenas[n]`, when it points into the chain, points at a valid
position. -/
def slotOk (st : St) : Bool :=
  match st.slot with
  | .cur i => i < st.chain.length
  | _ => true

/-- Well-formedness of an arena state: every chunk satisfies the cursor
invariant, the nominal chunk size is non-negative, and the current-chunk
pointer is a valid chain position. -/
def WFSt (st : St) : Prop :=
  (∀ c ∈ st.chain, WFChunk c) ∧ 0 ≤ st.fcs ∧ slotOk st = true

instance (c : Chunk) : Decidable (WFChunk c) :=
  inferInstanceAs (Decidable (c.base + AHS ≤ c.beg ∧ c.beg ≤ c.end_))

instance (st : St) : Decidable (WFSt st) :=
  inferInstanceAs (Decidable ((∀ c ∈ st.chain, WFChunk c) ∧ 0 ≤ st.fcs ∧ slotOk st = true))

/-- Globals of the running example: 1 TiB ceiling, zero usage, logging off. -/
def g0 : Glob := ⟨1099511627776, 0, 0, 0, 0, 0, 0, 0, 0⟩

/-- Registry initialised, arena not yet created. -/
def st0 : St := ⟨g0, 0, [], .nullp, true⟩

/-- After `arena_create(0, 4096)` with malloc returning address 16:
one chunk `⟨16, 4080, 4080, 48, 4096⟩`, nominal size 4080. -/
def st1 : St := (arena_create st0 4096 (some 16)).2

/-- After additionally `arena_alloc(0, 4048)`: the first chunk is full
(`begin = end = 4096`). -/
def st2 : St := (arena_alloc st1 4048 none).st

/-- After additionally `arena_alloc(0, 4048)` with malloc returning 8192:
a second, nominal-size chunk has been grown; its `end` bound is 12304
although malloc supplied bytes `[8192, 12272)` only. -/
def st3 : St := (arena_alloc st2 4048 (some 8192)).st

/-- After `arena_dealloc(0)` on the two-chunk state: cursor rewound to the
first chunk, second chunk still linked. -/
def stReset : St := (arena_dealloc st3).2

/-- After `arena_destroy(0)` on the one-chunk state: chain and cursor
cleared. -/
def stD : St := (arena_destroy st1).2

/-- Globals with a small ceiling (5000 bytes) for the budget-divergence
run. -/
def g5 : Glob := ⟨5000, 0, 0, 0, 0, 0, 0, 0, 0⟩

/-- Run A start state: ceiling 5000, logging off. -/
def stA : St := ⟨g5, 0, [], .nullp, true⟩

/-- Run B start state: identical to `stA` except logging is on (level 1). -/
def stB : St := ⟨{ g5 with log_level := 1 }, 0, [], .nullp, true⟩

/-! ### Helper lemmas -/

theorem padOf_nonneg (m : Int) : 0 ≤ padOf m :=
  Int.emod_nonneg _ (by norm_num)

theorem padOf_lt (m : Int) : padOf m < 16 :=
  Int.emod_lt_of_pos _ (by norm_num)

theorem padOf_padded (m : Int) : padOf (m + padOf m) = 0 := by
  unfold padOf
  omega

theorem tc64_small (x : Nat) (h : x < 9223372036854775808) : tc64 x = (x : Int) := by
  unfold tc64
  rw [Nat.mod_eq_of_lt (by omega)]
  rw [if_pos h]

theorem alloc_nullp_ub (st : St) (s : Nat) (mres : Option Int)
    (hin : st.inited = true) (hslot : st.slot = .nullp)
    (hs0 : ¬ s = 0) (hs1 : ¬ PTRDIFF_MAXn < s) :
    (arena_alloc st s mres).out = .ub := by
  simp only [arena_alloc, hin, hslot]
  rw [if_neg (by decide), if_neg (fun hh => hh.elim hs0 hs1)]

theorem allocFind_fit (g : Glob) (fcs pd padding : Int) (mres : Option Int)
    (cur : Chunk) (rest : List Chunk) (h : ¬ (cur.end_ - cur.beg) - padding < pd) :
    allocFind g fcs pd padding mres cur rest = ⟨.found, [], cur, rest, g, []⟩ := by
  cases rest <;> simp only [allocFind] <;> rw [if_neg h]

theorem allocFind_advance (g : Glob) (fcs pd padding : Int) (mres : Option Int)
    (cur c : Chunk) (rest2 : List Chunk) (h : (cur.end_ - cur.beg) - padding < pd) :
    allocFind g fcs pd padding mres cur (c :: rest2) =
      { allocFind g fcs pd padding mres { c with beg := c.base + AHS } rest2 with
          passed := cur ::
            (allocFind g fcs pd padding mres { c with beg := c.base + AHS } rest2).passed } := by
  simp only [allocFind]
  rw [if_pos h]

theorem getD_append_len {α : Type} (l₁ l₂ : List α) (k : Nat) (d : α) :
    (l₁ ++ l₂).getD (l₁.length + k) d = l₂.getD k d := by
  induction l₁ with
  | nil => simp
  | cons a t ih =>
    have : t.length + 1 + k = (t.length + k) + 1 := by omega
    simp only [List.cons_append, List.length_cons, this, List.getD_cons_succ]
    exact ih

theorem growChunk_spec (g : Glob) (fcs pd padding : Int) (mres : Option Int)
    (nc : Chunk) (g2 : Glob)
    (h : growChunk g fcs pd padding mres = .grown nc g2)
    (hfcs : 0 ≤ fcs) (hpd : 0 < pd) (hpad : 0 ≤ padding) :
    nc.beg = nc.base + AHS ∧ nc.end_ = nc.base + AHS + nc.chunk_sz ∧
    0 ≤ nc.chunk_sz ∧ pd + padding ≤ nc.chunk_sz := by
  have hmax1 := le_max_left (pd + padding + AHS) fcs
  have hmax2 := le_max_right (pd + padding + AHS) fcs
  simp only [growChunk] at h
  split at h
  · exact nomatch h
  · split at h
    · exact nomatch h
    · split at h
      · exact nomatch h
      · split at h
        · exact nomatch h
        · rename_i b
          injection h with h1 h2
          subst h1
          refine ⟨rfl, rfl, ?_, ?_⟩ <;> dsimp only <;> split <;> unfold AHS at * <;> omega

theorem allocFind_wf (g : Glob) (fcs pd padding : Int) (mres : Option Int)
    (hfcs : 0 ≤ fcs) (hpd : 0 < pd) (hpad : 0 ≤ padding) :
    ∀ (rest : List Chunk) (cur : Chunk), WFChunk cur → (∀ c ∈ rest, WFChunk c) →
      ((∀ c ∈ (allocFind g fcs pd padding mres cur rest).passed, WFChunk c) ∧
       WFChunk (allocFind g fcs pd padding mres cur rest).cur ∧
       (∀ c ∈ (allocFind g fcs pd padding mres cur rest).rest, WFChunk c)) ∧
      ((allocFind g fcs pd padding mres cur rest).res = .found →
        pd + padding ≤ (allocFind g fcs pd padding mres cur rest).cur.end_ -
          (allocFind g fcs pd padding mres cur rest).cur.beg) := by
  intro rest
  induction rest with
  | nil =>
    intro cur hcur hrest
    simp only [allocFind]
    split
    · split
      · rename_i nc g2 heq
        obtain ⟨e1, e2, e3, e4⟩ := growChunk_spec g fcs pd padding mres nc g2 heq hfcs hpd hpad
        dsimp only
        refine ⟨⟨?_, ⟨by omega, by omega⟩, by simp⟩, fun _ => by omega⟩
        intro c hc
        simp only [List.mem_singleton] at hc
        exact hc ▸ hcur
      · exact ⟨⟨by simp, hcur, by simp⟩, fun h => nomatch h⟩
      · exact ⟨⟨by simp, hcur, by simp⟩, fun h => nomatch h⟩
    · rename_i hfit
      dsimp only
      exact ⟨⟨by simp, hcur, by simp⟩, fun _ => by omega⟩
  | cons c rest2 ih =>
    intro cur hcur hrest
    have hc : WFChunk c := hrest c (List.mem_cons_self c rest2)
    have hrest2 : ∀ x ∈ rest2, WFChunk x := fun x hx => hrest x (List.mem_cons_of_mem _ hx)
    simp only [allocFind]
    split
    · have hcur2 : WFChunk { c with beg := c.base + AHS } :=
        ⟨le_refl _, le_trans hc.1 hc.2⟩
      obtain ⟨⟨hp, hcu, hr⟩, hfit⟩ := ih { c with beg := c.base + AHS } hcur2 hrest2
      dsimp only
      refine ⟨⟨?_, hcu, hr⟩, hfit⟩
      intro x hx
      rcases List.mem_cons.mp hx with h | h
      · exact h ▸ hcur
      · exact hp x h
    · rename_i hfit
      dsimp only
      exact ⟨⟨by simp, hcur, hrest⟩, fun _ => by omega⟩

theorem allocFind_frame (g : Glob) (fcs pd padding : Int) (mres : Option Int) :
    ∀ (rest : List Chunk) (cur : Chunk),
      ((allocFind g fcs pd padding mres cur rest).granted = [] →
        ((allocFind g fcs pd padding mres cur rest).passed ++
          (allocFind g fcs pd padding mres cur rest).cur ::
            (allocFind g fcs pd padding mres cur rest).rest).map eraseBeg
          = (cur :: rest).map eraseBeg) ∧
      (¬ (allocFind g fcs pd padding mres cur rest).granted = [] →
        (allocFind g fcs pd padding mres cur rest).passed.map eraseBeg
          = (cur :: rest).map eraseBeg ∧
        (allocFind g fcs pd padding mres cur rest).rest = []) := by
  intro rest
  induction rest with
  | nil =>
    intro cur
    simp only [allocFind]
    split
    · split
      · dsimp only
        exact ⟨fun h => absurd h (by simp), fun _ => ⟨rfl, rfl⟩⟩
      · dsimp only
        exact ⟨fun _ => rfl, fun h => absurd rfl h⟩
      · dsimp only
        exact ⟨fun _ => rfl, fun h => absurd rfl h⟩
    · dsimp only
      exact ⟨fun _ => rfl, fun h => absurd rfl h⟩
  | cons c rest2 ih =>
    intro cur
    simp only [allocFind]
    split
    · obtain ⟨ih1, ih2⟩ := ih { c with beg := c.base + AHS }
      dsimp only
      constructor
      · intro hg
        have h1 := ih1 hg
        simp only [List.cons_append, List.map_cons]
        rw [h1]
        rfl
      · intro hg
        obtain ⟨h1, h2⟩ := ih2 hg
        refine ⟨?_, h2⟩
        simp only [List.map_cons]
        rw [h1]
        rfl
    · dsimp only
      exact ⟨fun _ => rfl, fun h => absurd rfl h⟩

theorem allocFind_reset (g : Glob) (fcs pd padding : Int) (mres : Option Int) :
    ∀ (rest : List Chunk) (cur : Chunk),
      (allocFind g fcs pd padding mres cur rest).granted = [] →
      (allocFind g fcs pd padding mres cur rest).res = .found →
      (((allocFind g fcs pd padding mres cur rest).passed = [] →
          (allocFind g fcs pd padding mres cur rest).cur = cur) ∧
       (¬ (allocFind g fcs pd padding mres cur rest).passed = [] →
          (allocFind g fcs pd padding mres cur rest).cur.beg =
            (allocFind g fcs pd padding mres cur rest).cur.base + AHS)) := by
  intro rest
  induction rest with
  | nil =>
    intro cur
    simp only [allocFind]
    split
    · split
      · dsimp only
        exact fun hg => absurd hg (by simp)
      · dsimp only
        exact fun _ hr => nomatch hr
      · dsimp only
        exact fun _ hr => nomatch hr
    · dsimp only
      exact fun _ _ => ⟨fun _ => rfl, fun h => absurd rfl h⟩
  | cons c rest2 ih =>
    intro cur
    simp only [allocFind]
    split
    · dsimp only
      intro hg hr
      obtain ⟨ih1, ih2⟩ := ih { c with beg := c.base + AHS } hg hr
      constructor
      · intro h
        exact absurd h (by simp)
      · intro _
        by_cases hp : (allocFind g fcs pd padding mres { c with beg := c.base + AHS }
            rest2).passed = []
        · rw [ih1 hp]
        · exact ih2 hp
    · dsimp only
      exact fun _ _ => ⟨fun _ => rfl, fun h => absurd rfl h⟩

theorem arenaInitC_some (g : Glob) (cs : Nat) (mres : Option Int) (r : Out)
    (c : Chunk) (g2 : Glob) (h : arenaInitC g cs mres = (r, some c, g2)) :
    c.beg = c.base + AHS ∧ c.end_ = c.base + c.chunk_sz ∧ AHS < c.chunk_sz := by
  simp only [arenaInitC] at h
  repeat' split at h
  all_goals injection h with h1 h2
  all_goals injection h2 with h2 h3
  all_goals injection h2
  all_goals subst_vars
  all_goals exact ⟨rfl, rfl, by dsimp only; omega⟩

theorem allocC_wf (g : Glob) (fcs : Int) (chain : List Chunk) (i : Nat) (s : Nat)
    (mres : Option Int) (hfcs : 0 ≤ fcs) (hchain : ∀ c ∈ chain, WFChunk c)
    (hi : i < chain.length) :
    (∀ c ∈ (allocC g fcs chain i s mres).chain, WFChunk c) ∧
    (allocC g fcs chain i s mres).idx < (allocC g fcs chain i s mres).chain.length := by
  simp only [allocC]
  split
  · exact ⟨hchain, hi⟩
  · rename_i hguard
    have hs1 : (1 : Int) ≤ (s : Int) := by
      have h0 : s ≠ 0 := fun h => hguard (Or.inl h)
      omega
    have hcur : WFChunk (chain.getD i chunk0) := by
      rw [List.getD_eq_getElem chain chunk0 hi]
      exact hchain _ (List.getElem_mem hi)
    have hrest : ∀ c ∈ chain.drop (i + 1), WFChunk c :=
      fun c hc => hchain c (List.drop_subset _ _ hc)
    have hpad := padOf_nonneg ((s : Nat) : Int)
    obtain ⟨⟨hp, hcu, hr⟩, hfit⟩ := allocFind_wf g fcs (s : Int) (padOf (s : Int)) mres
      hfcs (by omega) hpad (chain.drop (i + 1)) (chain.getD i chunk0) hcur hrest
    have htk : ∀ c ∈ chain.take i, WFChunk c :=
      fun c hc => hchain c (List.take_subset _ _ hc)
    have hitk : (chain.take i).length = i := List.length_take_of_le (le_of_lt hi)
    split
    · rename_i heq
      constructor
      · intro c hc
        rcases List.mem_append.mp hc with h | h
        · rcases List.mem_append.mp h with h | h
          · exact htk c h
          · exact hp c h
        · rcases List.mem_cons.mp h with h | h
          · subst h
            have h1 := hcu.1
            have h2 := hcu.2
            have h3 := hfit heq
            exact ⟨by dsimp only; omega, by dsimp only; omega⟩
          · exact hr c h
      · dsimp only
        simp only [List.length_append, List.length_cons, hitk]
        omega
    · constructor
      · intro c hc
        rcases List.mem_append.mp hc with h | h
        · rcases List.mem_append.mp h with h | h
          · exact htk c h
          · exact hp c h
        · rcases List.mem_cons.mp h with h | h
          · exact h ▸ hcu
          · exact hr c h
      · dsimp only
        simp only [List.length_append, List.length_cons, hitk]
        omega
    · constructor
      · intro c hc
        rcases List.mem_append.mp hc with h | h
        · rcases List.mem_append.mp h with h | h
          · exact htk c h
          · exact hp c h
        · rcases List.mem_cons.mp h with h | h
          · exact h ▸ hcu
          · exact hr c h
      · dsimp only
        simp only [List.length_append, List.length_cons, hitk]
        omega

theorem allocSlowCur_wf (st : St) (i : Nat) (pd : Int) (mres : Option Int)
    (hch : ∀ c ∈ st.chain, WFChunk c) (hfcs : 0 ≤ st.fcs)
    (hi : i < st.chain.length) :
    WFSt (allocSlowCur st i pd mres).st := by
  obtain ⟨h1, h2⟩ := allocC_wf st.g st.fcs st.chain i pd.toNat mres hfcs hch hi
  simp only [allocSlowCur]
  split <;>
    exact ⟨h1, hfcs, by simp only [slotOk, decide_eq_true_eq]; exact h2⟩

theorem allocSlowSentinel_wf (st : St) (pd : Int) (mres : Option Int)
    (h : WFSt st) (hpd : 0 < pd) :
    WFSt (allocSlowSentinel st pd mres).st := by
  obtain ⟨hch, hfcs, hsl⟩ := h
  simp only [allocSlowSentinel]
  split
  · rename_i heq
    split
    · rename_i nc g2 hgrow
      obtain ⟨e1, e2, e3, e4⟩ := growChunk_spec st.g st.fcs pd (padOf pd) mres nc g2
        hgrow hfcs hpd (padOf_nonneg pd)
      have hpadnn := padOf_nonneg pd
      refine ⟨?_, hfcs, by simp [slotOk]⟩
      intro c hc
      simp only [List.mem_singleton] at hc
      subst hc
      exact ⟨by dsimp only; omega, by dsimp only; omega⟩
    · exact ⟨hch, hfcs, hsl⟩
    · exact ⟨hch, hfcs, hsl⟩
  · rename_i c rest heq
    have hc : WFChunk c := hch c (by rw [heq]; exact List.mem_cons_self c rest)
    have hrest : ∀ x ∈ rest, WFChunk x :=
      fun x hx => hch x (by rw [heq]; exact List.mem_cons_of_mem _ hx)
    have hcur2 : WFChunk { c with beg := c.base + AHS } :=
      ⟨le_refl _, le_trans hc.1 hc.2⟩
    obtain ⟨⟨hp, hcu, hr⟩, hfit⟩ := allocFind_wf st.g st.fcs pd (padOf pd) mres
      hfcs hpd (padOf_nonneg pd) rest { c with beg := c.base + AHS } hcur2 hrest
    have hpadnn := padOf_nonneg pd
    split
    · rename_i heqres
      refine ⟨?_, hfcs, by simp [slotOk]⟩
      intro x hx
      rcases List.mem_append.mp hx with hx | hx
      · exact hp x hx
      · rcases List.mem_cons.mp hx with hx | hx
        · subst hx
          have h1 := hcu.1
          have h2 := hcu.2
          have h3 := hfit heqres
          exact ⟨by dsimp only; omega, by dsimp only; omega⟩
        · exact hr x hx
    · refine ⟨?_, hfcs, by simp [slotOk]⟩
      intro x hx
      rcases List.mem_append.mp hx with hx | hx
      · exact hp x hx
      · rcases List.mem_cons.mp hx with hx | hx
        · exact hx ▸ hcu
        · exact hr x hx
    · exact ⟨hch, hfcs, hsl⟩

theorem arena_alloc_wf (st : St) (s : Nat) (mres : Option Int) (h : WFSt st) :
    WFSt (arena_alloc st s mres).st := by
  obtain ⟨hch, hfcs, hsl⟩ := h
  have hMA : MAX_ALIGN = 16 := rfl
  simp only [arena_alloc]
  split
  · exact ⟨hch, hfcs, hsl⟩
  · split
    · exact ⟨hch, hfcs, hsl⟩
    · rename_i hinited hguard
      have hs1 : (1 : Int) ≤ (s : Int) := by
        have h0 : s ≠ 0 := fun hh => hguard (Or.inl hh)
        omega
      have hpadnn := padOf_nonneg ((s : Nat) : Int)
      split
      · exact ⟨hch, hfcs, hsl⟩
      · -- sentinel
        split
        · exact ⟨hch, hfcs, hsl⟩
        · split
          · exact ⟨hch, hfcs, hsl⟩
          · split
            · exact ⟨hch, hfcs, hsl⟩
            · exact allocSlowSentinel_wf st ((s : Int) + padOf (s : Int)) mres
                ⟨hch, hfcs, hsl⟩ (by omega)
      · -- current chunk i
        rename_i i heq
        have hi : i < st.chain.length := by
          have hh := hsl
          simp only [slotOk, heq, decide_eq_true_eq] at hh
          exact hh
        have hcur : WFChunk (st.chain.getD i chunk0) := by
          rw [List.getD_eq_getElem st.chain chunk0 hi]
          exact hch _ (List.getElem_mem hi)
        split
        · exact ⟨hch, hfcs, hsl⟩
        · split
          · exact ⟨hch, hfcs, hsl⟩
          · split
            · exact ⟨hch, hfcs, hsl⟩
            · split
              · exact ⟨hch, hfcs, hsl⟩
              · split
                · exact allocSlowCur_wf st i ((s : Int) + padOf (s : Int)) mres hch hfcs hi
                · -- fast path
                  rename_i hroom
                  refine ⟨?_, hfcs, ?_⟩
                  · intro c hc
                    rcases List.mem_or_eq_of_mem_set hc with hmem | hmem
                    · exact hch c hmem
                    · subst hmem
                      have h1 := hcur.1
                      have h2 := hcur.2
                      constructor
                      · dsimp only
                        split <;> omega
                      · dsimp only
                        split <;> omega
                  · simp only [slotOk, heq, List.length_set, decide_eq_true_eq]
                    simp only [slotOk, heq, decide_eq_true_eq] at hsl
                    exact hsl

theorem chain_take_frame (chain : List Chunk) (i : Nat) (hi : i < chain.length)
    (passed : List Chunk) (x y : Chunk) (rest : List Chunk)
    (hxy : eraseBeg x = eraseBeg y)
    (hm : (passed ++ y :: rest).map eraseBeg
        = (chain.getD i chunk0 :: chain.drop (i + 1)).map eraseBeg) :
    (((chain.take i ++ passed) ++ (x :: rest)).take chain.length).map eraseBeg
      = chain.map eraseBeg := by
  have hlenm := congrArg List.length hm
  simp only [List.length_map, List.length_append, List.length_cons, List.length_drop]
    at hlenm
  have htl : (chain.take i).length = i := List.length_take_of_le (le_of_lt hi)
  have hlen2 : ((chain.take i ++ passed) ++ (x :: rest)).length = chain.length := by
    simp only [List.length_append, List.length_cons, htl]
    omega
  rw [← hlen2, List.take_length]
  have hdec : chain.take i ++ chain.getD i chunk0 :: chain.drop (i + 1) = chain := by
    rw [List.getD_eq_getElem chain chunk0 hi, List.get_drop_eq_drop chain i hi,
      List.take_append_drop]
  calc ((chain.take i ++ passed) ++ (x :: rest)).map eraseBeg
      = (chain.take i).map eraseBeg ++ (passed ++ y :: rest).map eraseBeg := by
        simp only [List.map_append, List.map_cons, List.append_assoc, hxy]
    _ = (chain.take i).map eraseBeg ++
          (chain.getD i chunk0 :: chain.drop (i + 1)).map eraseBeg := by rw [hm]
    _ = chain.map eraseBeg := by rw [← List.map_append, hdec]

theorem chain_take_frame_grant (chain : List Chunk) (i : Nat) (hi : i < chain.length)
    (passed : List Chunk) (x : Chunk)
    (hm : passed.map eraseBeg = (chain.getD i chunk0 :: chain.drop (i + 1)).map eraseBeg) :
    (((chain.take i ++ passed) ++ [x]).take chain.length).map eraseBeg
      = chain.map eraseBeg := by
  have hlenm := congrArg List.length hm
  simp only [List.length_map, List.length_append, List.length_cons, List.length_drop]
    at hlenm
  have htl : (chain.take i).length = i := List.length_take_of_le (le_of_lt hi)
  have hl1 : (chain.take i ++ passed).length = chain.length := by
    simp only [List.length_append, htl]
    omega
  have hdec : chain.take i ++ chain.getD i chunk0 :: chain.drop (i + 1) = chain := by
    rw [List.getD_eq_getElem chain chunk0 hi, List.get_drop_eq_drop chain i hi,
      List.take_append_drop]
  rw [List.take_left' hl1]
  calc (chain.take i ++ passed).map eraseBeg
      = (chain.take i).map eraseBeg ++ passed.map eraseBeg := by
        simp only [List.map_append]
    _ = (chain.take i).map eraseBeg ++
          (chain.getD i chunk0 :: chain.drop (i + 1)).map eraseBeg := by rw [hm]
    _ = chain.map eraseBeg := by rw [← List.map_append, hdec]

/-! ### Claim theorems -/

/-- Claim C1 (code bug).  After `arena_create(0, 4096)`, filling the first
chunk and growing a second nominal-size chunk (malloc gave 4080 bytes at
address 8192, so the block is `[8192, 12272)`), the request
`arena_alloc(0, 16)` succeeds on the fast path and returns pointer 12272:
the served range `[12272, 12288)` lies inside the chunk's recorded bounds
(`end = 12304`) but entirely past the bytes actually obtained from malloc
(`base + mallocSz = 12272`), because `_alloc` sets
`end = base + _AHS + chunk_sz` on the nominal branch while malloc supplied
only `chunk_sz` bytes.  This contradicts the claim's "never past the bytes
actually obtained from the underlying allocator". -/
theorem c1_heap_overflow_eval :
    (arena_alloc st3 16 none).out = .ok 12272 ∧
    st3.chain.getD 1 chunk0 = ⟨8192, 4080, 4080, 12272, 12304⟩ ∧
    (8192 : Int) + 4080 < 12272 + 16 := by decide

/-- Claim C2 (counterexample).  On the fast path with `requested_size =
100` (padding 12) in the fresh chunk of `st1` (cursor 48, limit 4096), the
code returns 48 but advances the cursor to 176 — an advance of 128, not
`requested_size + padding = 112` (the conditional extra `MAX_ALIGN`
advance fired) — and the zero-filled range `[147, 160)` starts at
`p + 99`, inside the payload `[48, 148)`.  Both conjuncts of the claim
("advanced by exactly requested_size + padding", "no byte of the payload
is written") are false at this input. -/
theorem c2_counterexample :
    (arena_alloc st1 100 none).out = .ok 48 ∧
    (arena_alloc st1 100 none).st.chain.getD 0 chunk0 = ⟨16, 4080, 4080, 176, 4096⟩ ∧
    ((176 : Int) - 48 ≠ 100 + padOf 100) ∧
    (arena_alloc st1 100 none).zeroed = [(147, 160)] ∧
    (147 : Int) < 48 + 100 := by decide

/-- Claim C2 (amended).  On the fast path of `arena_alloc` — current chunk
`c`, request `s` with `c.begin + s + padding <= c.end` and all guards
passing — the call returns the pre-bump cursor `c.begin`, advances the
cursor by `s + padding` plus an additional `MAX_ALIGN` when the bumped
cursor is more than `MAX_ALIGN` below the chunk's `end` bound, zero-fills
exactly the bytes `[p + s - 1, p + s + padding)` (the padding tail
together with the final payload byte), and requests nothing from the
underlying allocator. -/
theorem c2_amended_fast_path (st : St) (s : Nat) (mres : Option Int) (i : Nat) (c : Chunk)
    (hin : st.inited = true)
    (hs0 : s ≠ 0) (hs1 : ¬ PTRDIFF_MAXn < s)
    (hslot : st.slot = .cur i)
    (hc : st.chain.getD i chunk0 = c)
    (hmeta : ¬ PTRDIFF_MAX - AHS < (s : Int) + padOf (s : Int))
    (hbud1 : ¬ st.g.max_alloc < (s : Int) + padOf (s : Int))
    (hbud2 : ¬ st.g.max_alloc - st.g.tot_mem_usage < (s : Int) + padOf (s : Int))
    (hpos : 0 ≤ c.beg)
    (hfit : c.beg + ((s : Int) + padOf (s : Int)) ≤ c.end_) :
    arena_alloc st s mres =
      ⟨.ok c.beg,
       { st with
           chain := st.chain.set i
             { c with beg := c.beg + ((s : Int) + padOf (s : Int)) +
                 (if c.beg + ((s : Int) + padOf (s : Int)) < c.end_ - MAX_ALIGN
                  then MAX_ALIGN else 0) },
           g := bumpServed st.g ((s : Int) + padOf (s : Int)) },
       [(c.beg + ((s : Int) + padOf (s : Int)) - padOf (s : Int) - 1,
         c.beg + ((s : Int) + padOf (s : Int)))],
       []⟩ := by
  have hpad := padOf_nonneg (s : Int)
  have h2 : ¬ (s = 0 ∨ PTRDIFF_MAXn < s) := fun h => h.elim hs0 hs1
  have h3 : ¬ ((s : Int) + padOf (s : Int) < (s : Int) ∨
      PTRDIFF_MAX - AHS < (s : Int) + padOf (s : Int)) := by
    push_neg
    exact ⟨by omega, by omega⟩
  have h4 : ¬ (c.beg + ((s : Int) + padOf (s : Int)) < 0) := by omega
  have h5 : ¬ (c.end_ < c.beg + ((s : Int) + padOf (s : Int))) := by omega
  simp only [arena_alloc, hin, hslot, hc]
  rw [if_neg (by decide), if_neg h2, if_neg h3, if_neg hbud1, if_neg hbud2, if_neg h4,
    if_neg h5]

/-- Claim C2 (witness).  Instantiation of the amended fast-path theorem at
`st1` with `s = 100`: request padded to 112, cursor 48 advanced to 176
(the extra `MAX_ALIGN` fired), zeroed range `[147, 160)`. -/
theorem c2_witness :
    arena_alloc st1 100 none =
      ⟨.ok 48,
       { st1 with
           chain := st1.chain.set 0 ⟨16, 4080, 4080, 176, 4096⟩,
           g := bumpServed st1.g 112 },
       [(147, 160)], []⟩ := by
  have h := c2_amended_fast_path st1 100 none 0 ⟨16, 4080, 4080, 48, 4096⟩
    (by decide) (by decide) (by decide) (by decide) (by decide) (by decide)
    (by decide) (by decide) (by decide) (by decide)
  simpa using h

/-- Claim C3 (counterexample).  `arena_calloc(0, SIZE_MAX/2, 3)` hits the
multiplication-overflow check `nelem > -1ULL / mem_sz` and terminates the
process with `exit(EXIT_FAILURE)` — it does not return the recoverable
null indicator the claim requires. -/
theorem c3_counterexample :
    (arena_calloc st1 9223372036854775807 3 none).out = .fatal ∧
    (arena_calloc st1 9223372036854775807 3 none).out ≠ .nullRet := by decide

/-- Claim C3 (amended).  For every initialised state and every element
count/size pair whose product is not representable in `size_t`
(`nelem * mem_sz >= 2^64`), `arena_calloc` detects the overflow with the
`nelem > -1ULL / mem_sz` check and terminates the process fatally
(`exit(EXIT_FAILURE)`) — it does not wrap around to a small allocation,
but neither does it return the recoverable null indicator. -/
theorem c3_amended_overflow_fatal (st : St) (nelem msz : Nat) (mres : Option Int)
    (hin : st.inited = true) (h0 : ¬ msz = 0)
    (hov : 18446744073709551616 ≤ nelem * msz) :
    (arena_calloc st nelem msz mres).out = .fatal := by
  have hd : 18446744073709551615 / msz < nelem := by
    by_contra h
    push_neg at h
    have := (Nat.le_div_iff_mul_le (Nat.pos_of_ne_zero h0)).mp h
    omega
  simp only [arena_calloc, hin]
  rw [if_neg (by decide), if_neg h0, if_pos hd]

/-- Claim C3 (witness).  Instantiation of the amended theorem at
`nelem = 2^63`, `mem_sz = 2` (product exactly `2^64`). -/
theorem c3_witness :
    (arena_calloc st1 9223372036854775808 2 none).out = .fatal :=
  c3_amended_overflow_fatal st1 9223372036854775808 2 none (by decide) (by decide)
    (by norm_num)

/-- Claim C4 (code bug).  With logging disabled (`core_arena_log_level =
0`), `arena_create(0, 4096)` grants 4080 bytes
(`tot_mem_usage: 0 -> 4080`) and `arena_destroy(0)` frees the chunk chain
but never decrements `tot_mem_usage` — the release to the budget tracker
is guarded by `core_arena_log_level >= LOG_CHUNK_MALLOCS`, so the
reserve/release round trip drifts by the full grant. -/
theorem c4_budget_drift :
    st0.g.tot_mem_usage = 0 ∧
    st1.g.tot_mem_usage = 4080 ∧
    (arena_destroy st1).2.chain = [] ∧
    (arena_destroy st1).2.g.tot_mem_usage = 4080 := by decide

/-- Claim C5 (code bug).  Two runs that differ only in
`core_arena_log_level` (0 vs 1), both with budget ceiling 5000, perform
`create(0,4096); destroy(0); create(0,4096)`: with logging off the second
`create` terminates fatally on the budget check (`tot_mem_usage` was never
released at destroy), with logging on it succeeds — the log level controls
the budget-check outcome, so instrumentation is not a read-only
observer. -/
theorem c5_log_level_divergence :
    stB = { stA with g := { stA.g with log_level := 1 } } ∧
    (arena_create (arena_destroy (arena_create stA 4096 (some 16)).2).2 4096 (some 8192)).1
      = .fatal ∧
    (arena_create (arena_destroy (arena_create stB 4096 (some 16)).2).2 4096 (some 8192)).1
      = .ok 0 := by decide

/-- Claim C6 (confirmed).  When the arena's current chunk `c0` cannot
satisfy the (padded) request but a successor `c1` is already linked and
can, `arena_alloc` advances the cursor to `c1`, resets `c1.begin` to its
header end, and serves from it: the returned pointer is `c1.base + _AHS`,
no chunk is requested from the underlying allocator (`granted = []`), the
chain is unchanged except for `c1`'s cursor, `arenas[n]` now points at the
successor, and the budget `tot_mem_usage` is untouched.  In particular,
after a reset an allocation overflowing the first chunk reuses the
already-linked second chunk with no new grant. -/
theorem c6_reuse_successor (st : St) (s : Nat) (mres : Option Int) (c0 c1 : Chunk)
    (rest : List Chunk)
    (hin : st.inited = true)
    (hs0 : s ≠ 0) (hs1 : ¬ PTRDIFF_MAXn < s)
    (hslot : st.slot = .cur 0)
    (hchain : st.chain = c0 :: c1 :: rest)
    (hmeta : ¬ PTRDIFF_MAX - AHS < (s : Int) + padOf (s : Int))
    (hbud1 : ¬ st.g.max_alloc < (s : Int) + padOf (s : Int))
    (hbud2 : ¬ st.g.max_alloc - st.g.tot_mem_usage < (s : Int) + padOf (s : Int))
    (hpos : 0 ≤ c0.beg)
    (hnofit : c0.end_ < c0.beg + ((s : Int) + padOf (s : Int)))
    (hfit1 : c1.base + AHS + ((s : Int) + padOf (s : Int)) ≤ c1.end_) :
    arena_alloc st s mres =
      ⟨.ok (c1.base + AHS),
       { st with
           chain := c0 :: { c1 with beg := c1.base + AHS + ((s : Int) + padOf (s : Int)) } :: rest,
           slot := .cur 1,
           g := bumpServed st.g ((s : Int) + padOf (s : Int)) },
       [(c1.base + AHS + ((s : Int) + padOf (s : Int)) - 1,
         c1.base + AHS + ((s : Int) + padOf (s : Int)))],
       []⟩ ∧
    (bumpServed st.g ((s : Int) + padOf (s : Int))).tot_mem_usage = st.g.tot_mem_usage := by
  have hpad := padOf_nonneg (s : Int)
  have hplt := padOf_lt (s : Int)
  have hmod : (-((s : Int) + padOf (s : Int))) % 16 = 0 := by
    have h := padOf_padded (s : Int)
    unfold padOf at h
    exact h
  refine ⟨?_, by unfold bumpServed; split <;> rfl⟩
  have hget : st.chain.getD 0 chunk0 = c0 := by rw [hchain]; rfl
  have hdrop : st.chain.drop 1 = c1 :: rest := by rw [hchain]; rfl
  have h2 : ¬ (s = 0 ∨ PTRDIFF_MAXn < s) := fun h => h.elim hs0 hs1
  have h3 : ¬ ((s : Int) + padOf (s : Int) < (s : Int) ∨
      PTRDIFF_MAX - AHS < (s : Int) + padOf (s : Int)) := by
    push_neg
    exact ⟨by omega, by omega⟩
  simp only [arena_alloc, hin, hslot, hget]
  rw [if_neg (by decide), if_neg h2, if_neg h3, if_neg hbud1, if_neg hbud2,
    if_neg (show ¬ (c0.beg + ((s : Int) + padOf (s : Int)) < 0) by omega),
    if_pos hnofit]
  have hs16 : (16 : Int) ≤ (s : Int) + padOf (s : Int) := by omega
  have hnn : (0 : Int) ≤ (s : Int) + padOf (s : Int) := by omega
  have htn : ((((s : Int) + padOf (s : Int)).toNat : Nat) : Int) =
      (s : Int) + padOf (s : Int) := Int.toNat_of_nonneg hnn
  have hg1 : ¬ (((s : Int) + padOf (s : Int)).toNat = 0 ∨
      PTRDIFF_MAXn < ((s : Int) + padOf (s : Int)).toNat) := by
    unfold PTRDIFF_MAXn
    unfold PTRDIFF_MAX AHS at hmeta
    omega
  simp only [allocSlowCur, allocC, hg1, htn, if_neg hg1]
  rw [padOf_padded]
  simp only [hget, hdrop]
  rw [allocFind_advance _ _ _ _ _ _ _ _ (by omega : (c0.end_ - c0.beg) - 0 <
      (s : Int) + padOf (s : Int))]
  rw [allocFind_fit _ _ _ _ _ _ _ (by
    show ¬ (c1.end_ - (c1.base + AHS)) - 0 < (s : Int) + padOf (s : Int)
    omega)]
  simp only [List.take, List.length_cons, List.length_nil]
  norm_num
  exact hin

/-- Claim C6 (witness).  Instantiation at the reset two-chunk state
`stReset` (first chunk `[48, 4096)` rewound, second chunk
`⟨8192, 4080, 4080, _, 12304⟩` still linked) with `s = 4064`: the request
overflows the first chunk and is served at `8224 = 8192 + _AHS` from the
already-linked successor with no new grant. -/
theorem c6_witness :
    arena_alloc stReset 4064 none =
      ⟨.ok (8192 + AHS),
       { stReset with
           chain := [⟨16, 4080, 4080, 48, 4096⟩,
                     ⟨8192, 4080, 4080, 8192 + AHS + 4064, 12304⟩],
           slot := .cur 1,
           g := bumpServed stReset.g 4064 },
       [(8192 + AHS + 4064 - 1, 8192 + AHS + 4064)], []⟩ ∧
    (bumpServed stReset.g 4064).tot_mem_usage = stReset.g.tot_mem_usage := by
  have h := c6_reuse_successor stReset 4064 none ⟨16, 4080, 4080, 48, 4096⟩
    ⟨8192, 4080, 4080, 12272, 12304⟩ [] (by decide) (by decide) (by decide)
    (by decide) (by decide) (by decide) (by decide) (by decide) (by decide)
    (by decide) (by decide)
  simpa using h

/-- Claim C7 (code bug).  In state `st2` (current chunk full) with the
chunk-level malloc failing after the budget approved the request:
`arena_alloc(0, 64)` correctly returns the recoverable null indicator,
but `arena_calloc(0, 1, 64)` passes that null pointer straight to
`memset` — undefined behaviour (crash), not the null return the claim
requires of both operations. -/
theorem c7_calloc_memset_null :
    (arena_alloc st2 64 none).out = .nullRet ∧
    (arena_calloc st2 1 64 none).out = .ub ∧
    (arena_calloc st2 1 64 none).out ≠ .nullRet := by decide

/-- Claim C8 (counterexample).  After `arena_destroy(0)` the cleared
arena (`arenas[0] = NULL`) is not protected by any assertion-equivalent
check: `arena_alloc(0, 16)` passes `assert(arenas_initialized)` and the
size guards and then dereferences the null `arenas[0]` pointer
(`p = arenas[n]->begin`) — undefined behaviour, not the fatal detection
the claim states. -/
theorem c8_counterexample :
    stD.slot = .nullp ∧
    (arena_alloc stD 16 none).out = .ub ∧
    (arena_alloc stD 16 none).out ≠ .assertFail ∧
    (arena_alloc stD 16 none).out ≠ .fatal := by decide

/-- Claim C8 (amended).  Calling an allocation operation before the
registry is initialised is detected by `assert(arenas_initialized)` and
terminates; but calling `arena_alloc` or `arena_calloc` on an arena that
is Uninitialized (never created) or Destroyed — i.e. whose `arenas[n]`
pointer is the cleared NULL — passes that check and all size guards and
then dereferences the null arena pointer: undefined behaviour, not an
assertion-equivalent fatal detection. -/
theorem c8_amended_no_state_check (st : St) (s nelem msz : Nat) (mres : Option Int) :
    (st.inited = false →
      (arena_alloc st s mres).out = .assertFail ∧
      (arena_calloc st nelem msz mres).out = .assertFail) ∧
    (st.inited = true → st.slot = .nullp →
      (¬ s = 0 → ¬ PTRDIFF_MAXn < s → (arena_alloc st s mres).out = .ub) ∧
      (¬ nelem * msz = 0 → nelem * msz < 9223372036854775808 →
        ¬ st.g.max_alloc < ((nelem * msz : Nat) : Int) →
        ¬ st.g.max_alloc - st.g.tot_mem_usage < ((nelem * msz : Nat) : Int) →
        (arena_calloc st nelem msz mres).out = .ub)) := by
  constructor
  · intro hin
    constructor
    · simp only [arena_alloc, hin]
      rw [if_pos trivial]
    · simp only [arena_calloc, hin]
      rw [if_pos trivial]
  · intro hin hslot
    constructor
    · intro hs0 hs1
      exact alloc_nullp_ub st s mres hin hslot hs0 hs1
    · intro hp0 hp1 hmax hbud
      have hmsz0 : ¬ msz = 0 := by
        intro h
        exact hp0 (by rw [h, Nat.mul_zero])
      have hovf : ¬ 18446744073709551615 / msz < nelem := by
        push_neg
        rw [Nat.le_div_iff_mul_le (Nat.pos_of_ne_zero hmsz0)]
        omega
      have htc := tc64_small (nelem * msz) hp1
      have hle0 : ¬ tc64 (nelem * msz) ≤ 0 := by rw [htc]; omega
      have hptr : ¬ PTRDIFF_MAX < tc64 (nelem * msz) := by
        rw [htc]; unfold PTRDIFF_MAX; omega
      have htn : (tc64 (nelem * msz)).toNat = nelem * msz := by rw [htc]; omega
      have hub := alloc_nullp_ub st (nelem * msz) mres hin hslot hp0
        (by unfold PTRDIFF_MAXn; omega)
      simp only [arena_calloc, hin]
      rw [if_neg (by decide), if_neg hmsz0, if_neg hovf, if_neg hle0, if_neg hptr,
        if_neg (htc ▸ hmax), if_neg (htc ▸ hbud), htn]
      rw [hub]

/-- Claim C8 (witness).  Instantiation of the amended theorem: with the
registry flag cleared `arena_alloc` stops at the assertion, and on the
destroyed arena `stD` both `arena_alloc(0, 16)` and
`arena_calloc(0, 1, 16)` reach the null dereference. -/
theorem c8_witness :
    (arena_alloc { st1 with inited := false } 16 none).out = .assertFail ∧
    (arena_alloc stD 16 none).out = .ub ∧
    (arena_calloc stD 1 16 none).out = .ub := by
  refine ⟨((c8_amended_no_state_check { st1 with inited := false } 16 1 16 none).1 rfl).1,
    ?_, ?_⟩
  · exact ((c8_amended_no_state_check stD 16 1 16 none).2 (by decide) (by decide)).1
      (by decide) (by decide)
  · exact ((c8_amended_no_state_check stD 16 1 16 none).2 (by decide) (by decide)).2
      (by decide) (by decide) (by decide) (by decide)

/-- Claim C9 (confirmed).  The chunk-cursor invariant
`header_end <= begin <= end` (`0 <= cursor <= limit`) holds for every
chunk of a well-formed arena state and is preserved by every operation:
`arena_alloc` (both the fast-path bump with its conditional extra
`MAX_ALIGN` advance and the chunk-advance / new-chunk branches of
`_alloc`), `arena_calloc`, the cursor reset of `arena_dealloc`,
`arena_destroy`, and `arena_create` (unless `arena_create` crashes on the
unchecked null from a failed `_arena_init` malloc, in which case the
process terminates anyway). -/
theorem c9_invariant_preserved (st : St) (s nelem msz cs : Nat) (mres : Option Int)
    (h : WFSt st) :
    WFSt (arena_alloc st s mres).st ∧
    WFSt (arena_calloc st nelem msz mres).st ∧
    WFSt (arena_dealloc st).2 ∧
    WFSt (arena_destroy st).2 ∧
    ((arena_create st cs mres).1 = .ub ∨ WFSt (arena_create st cs mres).2) := by
  have hA : AHS = 32 := rfl
  refine ⟨arena_alloc_wf st s mres h, ?_, ?_, ?_, ?_⟩
  · simp only [arena_calloc]
    split
    · exact h
    · split
      · exact h
      · split
        · exact h
        · split
          · exact h
          · split
            · exact h
            · split
              · exact h
              · split
                · exact h
                · split <;> exact arena_alloc_wf st _ mres h
  · simp only [arena_dealloc]
    split
    · exact h
    · split
      · exact ⟨h.1, h.2.1, by simp [slotOk]⟩
      · rename_i c rest heq
        refine ⟨?_, h.2.1, by simp [slotOk]⟩
        intro x hx
        rcases List.mem_cons.mp hx with hx | hx
        · subst hx
          have hc : WFChunk c := h.1 c (by rw [heq]; exact List.mem_cons_self c rest)
          exact ⟨le_refl _, le_trans hc.1 hc.2⟩
        · exact h.1 x (by rw [heq]; exact List.mem_cons_of_mem _ hx)
  · simp only [arena_destroy]
    split
    · exact h
    · exact ⟨by simp, h.2.1, by simp [slotOk]⟩
  · simp only [arena_create]
    split
    · exact Or.inr h
    · split
      · exact Or.inr h
      · split
        · rename_i p c g2 heq
          obtain ⟨e1, e2, e3⟩ := arenaInitC_some st.g cs mres (.ok p) c g2 heq
          refine Or.inr ?_
          refine ⟨?_, by dsimp only; omega, by simp [slotOk]⟩
          intro x hx
          simp only [List.mem_singleton] at hx
          subst hx
          exact ⟨by omega, by omega⟩
        · exact Or.inl rfl
        · exact Or.inr ⟨h.1, h.2.1, h.2.2⟩

/-- Claim C9 (witness).  Instantiation at the created state `st1` for a
fast-path allocation, a calloc, a dealloc, a destroy, and a re-create. -/
theorem c9_witness :
    WFSt st1 ∧
    WFSt (arena_alloc st1 4048 (some 16000)).st ∧
    WFSt (arena_calloc st1 3 32 (some 16000)).st ∧
    WFSt (arena_dealloc st1).2 ∧
    WFSt (arena_destroy st1).2 ∧
    ((arena_create st1 2048 (some 16000)).1 = .ub ∨
      WFSt (arena_create st1 2048 (some 16000)).2) := by
  have h := c9_invariant_preserved st1 4048 3 32 2048 (some 16000) (by decide)
  exact ⟨by decide, h.1, h.2.1, h.2.2.1, h.2.2.2.1, h.2.2.2.2⟩

/-- Claim C10 (confirmed).  When `_alloc` walks the chain — including when
it advances into already-linked successor chunks — the only field of any
pre-existing chunk it ever modifies is `begin`: the chains before and
after the call agree chunk-for-chunk once cursors are erased (`base`,
`mallocSz`, `chunk_sz`, `end` and the link order are all unchanged), so a
reused chunk always reports the capacity fixed at its creation,
independent of the arena's current nominal chunk size.  Moreover, when the
request is served from an advanced-into successor with no new grant, that
chunk's cursor was reset to its header end: the returned pointer is the
successor's `base + _AHS` and its final cursor is that pointer plus the
padded request. -/
theorem c10_advance_frame (g : Glob) (fcs : Int) (chain : List Chunk) (i : Nat)
    (s : Nat) (mres : Option Int) (hi : i < chain.length) :
    ((allocC g fcs chain i s mres).chain.take chain.length).map eraseBeg
      = chain.map eraseBeg ∧
    ∀ p, (allocC g fcs chain i s mres).res = .ok p →
      (allocC g fcs chain i s mres).granted = [] →
      i < (allocC g fcs chain i s mres).idx →
      p = ((allocC g fcs chain i s mres).chain.getD (allocC g fcs chain i s mres).idx
            chunk0).base + AHS ∧
      ((allocC g fcs chain i s mres).chain.getD (allocC g fcs chain i s mres).idx
          chunk0).beg = p + ((s : Int) + padOf (s : Int)) := by
  obtain ⟨fr1, fr2⟩ := allocFind_frame g fcs (s : Int) (padOf (s : Int))
    mres (chain.drop (i + 1)) (chain.getD i chunk0)
  have hrst := allocFind_reset g fcs (s : Int) (padOf (s : Int))
    mres (chain.drop (i + 1)) (chain.getD i chunk0)
  have htl : (chain.take i).length = i := List.length_take_of_le (le_of_lt hi)
  simp only [allocC]
  split
  · refine ⟨by rw [List.take_length], ?_⟩
    intro p hp
    exact nomatch hp
  · split
    · rename_i heqres
      constructor
      · dsimp only
        by_cases hg : (allocFind g fcs (s : Int) (padOf (s : Int)) mres
            (chain.getD i chunk0) (chain.drop (i + 1))).granted = []
        · exact chain_take_frame chain i hi _ _
            ((allocFind g fcs (s : Int) (padOf (s : Int)) mres
              (chain.getD i chunk0) (chain.drop (i + 1))).cur) _ rfl (fr1 hg)
        · obtain ⟨hm, hrr⟩ := fr2 hg
          rw [hrr]
          exact chain_take_frame_grant chain i hi _ _ hm
      · intro p hp hg hidx
        dsimp only at hp hg hidx ⊢
        injection hp with hp
        have hpne : ¬ (allocFind g fcs (s : Int) (padOf (s : Int)) mres
            (chain.getD i chunk0) (chain.drop (i + 1))).passed = [] := by
          intro hnil
          rw [hnil] at hidx
          simp at hidx
        obtain ⟨r1, r2⟩ := hrst hg heqres
        have hbeg := r2 hpne
        have hlen : (chain.take i ++ (allocFind g fcs (s : Int) (padOf (s : Int)) mres
              (chain.getD i chunk0) (chain.drop (i + 1))).passed).length
            = i + (allocFind g fcs (s : Int) (padOf (s : Int)) mres
              (chain.getD i chunk0) (chain.drop (i + 1))).passed.length := by
          simp only [List.length_append, htl]
        have hgd := getD_append_len
          (chain.take i ++ (allocFind g fcs (s : Int) (padOf (s : Int)) mres
            (chain.getD i chunk0) (chain.drop (i + 1))).passed)
          ({ (allocFind g fcs (s : Int) (padOf (s : Int)) mres
              (chain.getD i chunk0) (chain.drop (i + 1))).cur with
              beg := (allocFind g fcs (s : Int) (padOf (s : Int)) mres
                (chain.getD i chunk0) (chain.drop (i + 1))).cur.beg
                + (s : Int) + padOf (s : Int) } ::
            (allocFind g fcs (s : Int) (padOf (s : Int)) mres
              (chain.getD i chunk0) (chain.drop (i + 1))).rest)
          0 chunk0
        rw [show i + (allocFind g fcs (s : Int) (padOf (s : Int)) mres
              (chain.getD i chunk0) (chain.drop (i + 1))).passed.length
            = (chain.take i ++ (allocFind g fcs (s : Int) (padOf (s : Int)) mres
              (chain.getD i chunk0) (chain.drop (i + 1))).passed).length + 0 from by
            omega]
        rw [hgd]
        simp only [List.getD_cons_zero]
        constructor
        · dsimp only
          omega
        · dsimp only
          omega
    · constructor
      · dsimp only
        by_cases hg : (allocFind g fcs (s : Int) (padOf (s : Int)) mres
            (chain.getD i chunk0) (chain.drop (i + 1))).granted = []
        · exact chain_take_frame chain i hi _ _ _ _ rfl (fr1 hg)
        · obtain ⟨hm, hrr⟩ := fr2 hg
          rw [hrr]
          exact chain_take_frame_grant chain i hi _ _ hm
      · intro p hp
        dsimp only at hp
        exact nomatch hp
    · constructor
      · dsimp only
        by_cases hg : (allocFind g fcs (s : Int) (padOf (s : Int)) mres
            (chain.getD i chunk0) (chain.drop (i + 1))).granted = []
        · exact chain_take_frame chain i hi _ _ _ _ rfl (fr1 hg)
        · obtain ⟨hm, hrr⟩ := fr2 hg
          rw [hrr]
          exact chain_take_frame_grant chain i hi _ _ hm
      · intro p hp
        dsimp only at hp
        exact nomatch hp

/-- Claim C10 (witness).  Instantiation at the rewound two-chunk chain of
`stReset` with a request (4064 bytes) that advances into the linked
successor: every pre-existing chunk keeps its `base`, `mallocSz`,
`chunk_sz` and `end`, the served pointer is the successor's header end
`8224 = 8192 + _AHS`, and its cursor ends at `8224 + 4064`. -/
theorem c10_witness :
    ((allocC stReset.g stReset.fcs stReset.chain 0 4064 none).chain.take
        stReset.chain.length).map eraseBeg = stReset.chain.map eraseBeg ∧
    (8224 : Int) = ((allocC stReset.g stReset.fcs stReset.chain 0 4064 none).chain.getD
        (allocC stReset.g stReset.fcs stReset.chain 0 4064 none).idx chunk0).base + AHS ∧
    ((allocC stReset.g stReset.fcs stReset.chain 0 4064 none).chain.getD
        (allocC stReset.g stReset.fcs stReset.chain 0 4064 none).idx chunk0).beg
      = 8224 + ((4064 : Int) + padOf (4064 : Int)) := by
  have h := c10_advance_frame stReset.g stReset.fcs stReset.chain 0 4064 none (by decide)
  have h2 := h.2 8224 (by decide) (by decide) (by decide)
  exact ⟨h.1, by simpa using h2.1, by simpa using h2.2⟩

end CoreArena

